import Mathlib

/-!
Verification of the Tailscale dynamic-inventory plugin
(`plugins/inventory/tailscale.py`).

The development shallowly embeds the two parts of the program the
specification calls the core:

* the OAuth2 token handling of `TailscaleOAuth2API` (`load_token`,
  `get_token`, `get_devices`), and
* the inventory-building pass of `InventoryModule.parse` (the loop over
  `devices["devices"]` that filters by tag, adds hosts, sets
  `ansible_host`, and populates `tag_*` groups).

Mutable Ansible inventory state (`self.inventory`) is embedded as an
explicit state record `InvState` threaded through the pass; the Ansible
operations `add_host`/`set_variable`/`add_group`/`add_child` become pure
state transformers.  Python's `IndexError` on `device["addresses"][0]`
is embedded as an `Except` error so that the pass is a total function.
-/

/-- A device record as consumed by `InventoryModule.parse`: the fields
`hostname`, `addresses` and `tags` read from each element of
`devices["devices"]` (`tags` defaults to `[]` via `device.get("tags", [])`). -/
structure Device where
  hostname : String
  addresses : List String
  tags : List String
deriving Repr, DecidableEq

/-- The observable Ansible inventory state built by `parse`:
`hostVar h` is `some a` when host `h` has been added with
`ansible_host` set to `a` (in the source a host is always added and its
`ansible_host` set together, lines 157-158); `gexists g` records that
group `g` has been created via `add_group`; `member g h` records that
`add_child(g, h)` has been performed. -/
structure InvState where
  hostVar : String → Option String
  gexists : String → Bool
  member : String → String → Bool

/-- The inventory before `parse` has processed any device. -/
def emptyInv : InvState :=
  { hostVar := fun _ => none, gexists := fun _ => false, member := fun _ _ => false }

/-- The fault raised by the source when an included device's address list
is empty: `device["addresses"][0]` raises Python's `IndexError`
("list index out of range"), which carries no device identity. -/
inductive BuildError where
  | indexError
deriving Repr, DecidableEq

/-- The filter test of line 152:
`if not tags or any(f"tag:{tag}" in device_tags for tag in tags)`. -/
def included (tagsFilter : List String) (deviceTags : List String) : Bool :=
  tagsFilter.isEmpty || tagsFilter.any (fun t => deviceTags.contains ("tag:" ++ t))

/-- The group-name derivation of line 162: `f"tag_{tag[4:]}"` — the first
four characters of the tag are dropped unconditionally. -/
def groupName (tag : String) : String :=
  "tag_" ++ tag.drop 4

/-- Lines 157-158: `add_host(hostname)` followed by
`set_variable(hostname, "ansible_host", ip_address)`. -/
def addHostVar (inv : InvState) (h a : String) : InvState :=
  { inv with hostVar := fun k => if k = h then some a else inv.hostVar k }

/-- Line 164: `self.inventory.add_group(group_name)`. -/
def addGroup (inv : InvState) (g : String) : InvState :=
  { inv with gexists := fun k => if k = g then true else inv.gexists k }

/-- Line 165: `self.inventory.add_child(group_name, hostname)`. -/
def addChild (inv : InvState) (g h : String) : InvState :=
  { inv with member := fun g' h' => if g' = g ∧ h' = h then true else inv.member g' h' }

/-- The inner loop of lines 160-165: for each tag of the device, create
the group `f"tag_{tag[4:]}"` if it is not yet in `get_groups_dict()`,
then add the host as a child of that group. -/
def processTags (inv : InvState) (hn : String) : List String → InvState
  | [] => inv
  | tag :: rest =>
    let g := groupName tag
    let inv1 := if inv.gexists g then inv else addGroup inv g
    processTags (addChild inv1 g hn) hn rest

/-- The body of the device loop, lines 150-165, for one device: apply the
tag filter; for an included device read `addresses[0]` (an `IndexError`
when the list is empty), add the host with its `ansible_host`, then run
the tag loop. -/
def processDevice (tagsFilter : List String) (inv : InvState) (d : Device) :
    Except BuildError InvState :=
  if included tagsFilter d.tags then
    match d.addresses with
    | [] => .error .indexError
    | ip :: _ => .ok (processTags (addHostVar inv d.hostname ip) d.hostname d.tags)
  else
    .ok inv

/-- The device loop of lines 150-165 over the whole collection, threading
the inventory state; a raised `IndexError` aborts the pass. -/
def runList (tagsFilter : List String) (inv : InvState) : List Device → Except BuildError InvState
  | [] => .ok inv
  | d :: rest =>
    match processDevice tagsFilter inv d with
    | .error e => .error e
    | .ok inv' => runList tagsFilter inv' rest

/-- The inventory build: the device loop of `parse` started on an empty
inventory. -/
def build (devices : List Device) (tagsFilter : List String) : Except BuildError InvState :=
  runList tagsFilter emptyInv devices

/-- Running the device loop again on the outcome of a previous run (the
Ansible inventory object persists across `parse` calls); an error outcome
propagates. -/
def rerun (devices : List Device) (tagsFilter : List String)
    (x : Except BuildError InvState) : Except BuildError InvState :=
  match x with
  | .error e => .error e
  | .ok inv => runList tagsFilter inv devices

/-- Projection used to state concrete evaluations of `build` without
naming the full state term. -/
def extractInv (x : Except BuildError InvState) : InvState :=
  match x with
  | .ok t => t
  | .error _ => emptyInv

/-- The `ansible_host` value host `h` ends up with after the pass runs
over `L`: the first address of the last included device named `h`
(later devices overwrite earlier `set_variable` calls). -/
def lastVar (tagsFilter : List String) (h : String) : List Device → Option String
  | [] => none
  | d :: rest =>
    match lastVar tagsFilter h rest with
    | some a => some a
    | none =>
      if included tagsFilter d.tags && (d.hostname == h) then d.addresses.head? else none

/-- Whether some included device named `h` in `L` carries a tag whose
derived group name is `g`. -/
def inGroup (tagsFilter : List String) (g h : String) : List Device → Bool
  | [] => false
  | d :: rest =>
    (included tagsFilter d.tags && (h == d.hostname)
      && d.tags.any (fun tg => groupName tg == g))
    || inGroup tagsFilter g h rest

/-- Whether some included device in `L` carries a tag whose derived group
name is `g` (so the pass creates group `g`). -/
def touched (tagsFilter : List String) (g : String) : List Device → Bool
  | [] => false
  | d :: rest =>
    (included tagsFilter d.tags && d.tags.any (fun tg => groupName tg == g))
    || touched tagsFilter g rest

/-- The parsed body of the device-listing response:
`{"devices": [...]}` (spec §6, source line 150 `devices["devices"]`). -/
structure DeviceCollection where
  devices : List Device
deriving Repr, DecidableEq

/-- An HTTP response from the device-listing endpoint as observed by
`get_devices` (lines 79-88): the status code, the raw text body, and the
device collection the body parses to (`response.json()`). -/
structure HttpResponse where
  status : Nat
  body : String
  payload : DeviceCollection
deriving Repr, DecidableEq

/-- The failure raised on a non-200 device-listing response:
`Exception(f"Error: {response.status_code}: {response.text}")` carries the
status and the raw body (line 88). -/
structure APIError where
  status : Nat
  body : String
deriving Repr, DecidableEq

/-- Lines 85-88 of `TailscaleOAuth2API.get_devices`: on HTTP 200 return
the parsed JSON body, otherwise raise the error carrying status and body. -/
def get_devices (resp : HttpResponse) : Except APIError DeviceCollection :=
  if resp.status = 200 then .ok resp.payload
  else .error { status := resp.status, body := resp.body }

/-- A bearer token as held in `self.token`: the OAuth2 token-object fields
the spec's data model names (`access_token`, `token_type`, optional
expiry). -/
structure Token where
  access_token : String
  token_type : String
  expires_at : Option Nat
deriving Repr, DecidableEq

/-- The failure `json.load` raises on malformed cache content
(`json.JSONDecodeError`), which aborts `load_token`. -/
inductive CacheError where
  | jsonDecodeError
deriving Repr, DecidableEq

/-- Lines 68-73, `TailscaleOAuth2API.load_token`: when the token file
exists its content is parsed by `json.load` — embedded as
`some (some tk)` for well-formed content and `some none` for malformed
content, on which `json.load` raises — and only when the file does not
exist (`none`) does `get_token` run the OAuth2 client-credentials
exchange, whose outcome is `fresh`. -/
def load_token (file : Option (Option Token)) (fresh : Token) :
    Except CacheError Token :=
  match file with
  | none => .ok fresh
  | some none => .error .jsonDecodeError
  | some (some tk) => .ok tk

/-- A minimal JSON value, enough to serialize a `Token`. -/
inductive Json where
  | str (s : String)
  | num (n : Nat)
  | obj (fields : List (String × Json))

/-- Field lookup in a JSON object. -/
def lookupField : List (String × Json) → String → Option Json
  | [], _ => none
  | (k, v) :: rest, key => if k = key then some v else lookupField rest key

namespace TokenStore

/-- Modelled from the spec: `TokenStore.save` has no counterpart in the
source — the cache file `.tailscale_token.json` is read by `load_token`
but never written anywhere in `tailscale.py`.  Per spec §4.1/§6, `save`
writes the token serialized as JSON. -/
def save (t : Token) : Json :=
  .obj ([("access_token", .str t.access_token),
         ("token_type", .str t.token_type)]
    ++ (match t.expires_at with
        | some e => [("expires_at", .num e)]
        | none => []))

/-- Modelled from the spec: `TokenStore.load` reads the cache file and
parses the serialized token back (spec §4.1/§6: a single cache file
holding the serialized Token as JSON; absent fields beyond the required
ones are tolerated). -/
def load (j : Json) : Option Token :=
  match j with
  | .obj fs =>
    match lookupField fs "access_token", lookupField fs "token_type" with
    | some (.str a), some (.str ty) =>
      some { access_token := a, token_type := ty,
             expires_at :=
               match lookupField fs "expires_at" with
               | some (.num e) => some e
               | _ => none }
    | _, _ => none
  | _ => none

end TokenStore

/-- Scenario device `a` of spec §8. -/
def devA : Device := { hostname := "a", addresses := ["10.0.0.1"], tags := ["tag:web"] }

/-- Scenario device `b` of spec §8. -/
def devB : Device := { hostname := "b", addresses := ["10.0.0.2"], tags := ["tag:db"] }

/-- A device with an empty address list (spec §7 precondition scenario). -/
def devNoAddr : Device := { hostname := "gateway", addresses := [], tags := [] }

/-- A device carrying a tag without the `tag:` prefix and shorter than
five characters. -/
def devShortTag : Device := { hostname := "h", addresses := ["10.0.0.9"], tags := ["web"] }

theorem processTags_hostVar (T : List String) (inv : InvState) (hn : String) :
    (processTags inv hn T).hostVar = inv.hostVar := by
  induction T generalizing inv with
  | nil => rfl
  | cons tag rest ih =>
    simp only [processTags]
    rw [ih]
    by_cases h : inv.gexists (groupName tag) <;> simp [h, addChild, addGroup]

theorem processTags_gexists (T : List String) (inv : InvState) (hn g : String) :
    (processTags inv hn T).gexists g
      = (inv.gexists g || T.any (fun tg => groupName tg == g)) := by
  induction T generalizing inv with
  | nil => simp [processTags]
  | cons tag rest ih =>
    simp only [processTags, List.any_cons]
    rw [ih]
    have hch : ∀ u : InvState, (addChild u (groupName tag) hn).gexists g = u.gexists g := by
      intro u; rfl
    by_cases hg : inv.gexists (groupName tag)
    · simp only [if_pos hg, hch]
      by_cases hEq : groupName tag = g
      · subst hEq; simp [hg]
      · have : (groupName tag == g) = false := by simp [hEq]
        simp [this]
    · simp only [if_neg hg, hch, addGroup]
      by_cases hEq : g = groupName tag
      · subst hEq; simp
      · have hne : ¬ groupName tag = g := fun x => hEq x.symm
        have : (groupName tag == g) = false := by simp [hne]
        simp [hEq, this]

theorem processTags_member (T : List String) (inv : InvState) (hn g h : String) :
    (processTags inv hn T).member g h
      = (inv.member g h || ((h == hn) && T.any (fun tg => groupName tg == g))) := by
  induction T generalizing inv with
  | nil => simp [processTags]
  | cons tag rest ih =>
    simp only [processTags, List.any_cons]
    rw [ih]
    have hg1 : ∀ u : InvState,
        (if u.gexists (groupName tag) then u else addGroup u (groupName tag)).member
          = u.member := by
      intro u; by_cases hx : u.gexists (groupName tag) <;> simp [hx, addGroup]
    simp only [addChild, hg1]
    by_cases hEq : g = groupName tag <;> by_cases hh : h = hn
    · subst hEq; subst hh; simp
    · subst hEq
      have : (h == hn) = false := by simp [hh]
      simp [this, hh]
    · subst hh
      have hne : ¬ groupName tag = g := fun x => hEq x.symm
      have : (groupName tag == g) = false := by simp [hne]
      simp [this, hEq]
    · have hne : ¬ groupName tag = g := fun x => hEq x.symm
      have h1 : (groupName tag == g) = false := by simp [hne]
      have h2 : (h == hn) = false := by simp [hh]
      simp [h1, h2, hEq, hh]

theorem drop_four_tag (nm : String) : ("tag:" ++ nm).drop 4 = nm := by
  rw [String.drop_eq, String.data_append]
  rw [show ("tag:".data) = ['t', 'a', 'g', ':'] from rfl]
  apply String.ext
  simp

theorem runList_cons (f : List String) (s : InvState) (d : Device) (rest : List Device) :
    runList f s (d :: rest) =
      match processDevice f s d with
      | .error e => .error e
      | .ok inv' => runList f inv' rest := rfl

theorem runList_cons_error {f : List String} {s : InvState} {d : Device}
    {e : BuildError} (rest : List Device) (hpd : processDevice f s d = .error e) :
    runList f s (d :: rest) = .error e := by
  rw [runList_cons, hpd]

theorem runList_cons_ok {f : List String} {s s' : InvState} {d : Device}
    (rest : List Device) (hpd : processDevice f s d = .ok s') :
    runList f s (d :: rest) = runList f s' rest := by
  rw [runList_cons, hpd]

theorem processDevice_not_included {f : List String} {d : Device} (s : InvState)
    (h : included f d.tags = false) : processDevice f s d = .ok s := by
  simp [processDevice, h]

theorem processDevice_empty_addresses {f : List String} {d : Device} (s : InvState)
    (h : included f d.tags = true) (ha : d.addresses = []) :
    processDevice f s d = .error .indexError := by
  simp [processDevice, h, ha]

theorem processDevice_included {f : List String} {d : Device} {a : String}
    {as : List String} (s : InvState) (h : included f d.tags = true)
    (ha : d.addresses = a :: as) :
    processDevice f s d
      = .ok (processTags (addHostVar s d.hostname a) d.hostname d.tags) := by
  simp [processDevice, h, ha]

theorem runList_ok_addresses {f : List String} {L : List Device} {s t : InvState}
    (h : runList f s L = .ok t) :
    ∀ d ∈ L, included f d.tags = true → d.addresses ≠ [] := by
  induction L generalizing s with
  | nil => intro d hd; simp at hd
  | cons d rest ih =>
    intro d' hd' hinc
    by_cases hdinc : included f d.tags
    · cases haddr : d.addresses with
      | nil =>
        rw [runList_cons_error rest (processDevice_empty_addresses s hdinc haddr)] at h
        simp at h
      | cons a as =>
        rw [runList_cons_ok rest (processDevice_included s hdinc haddr)] at h
        rcases List.mem_cons.mp hd' with rfl | hmem
        · rw [haddr]; simp
        · exact ih h d' hmem hinc
    · rw [runList_cons_ok rest
        (processDevice_not_included s (Bool.not_eq_true _ ▸ hdinc))] at h
      rcases List.mem_cons.mp hd' with rfl | hmem
      · exact absurd hinc hdinc
      · exact ih h d' hmem hinc

theorem runList_hostVar {f : List String} {L : List Device} {s t : InvState}
    (h : runList f s L = .ok t) (hst : String) :
    t.hostVar hst
      = (match lastVar f hst L with
         | some a => some a
         | none => s.hostVar hst) := by
  induction L generalizing s with
  | nil =>
    simp only [runList] at h
    cases h
    simp [lastVar]
  | cons d rest ih =>
    by_cases hdinc : included f d.tags
    · cases haddr : d.addresses with
      | nil =>
        rw [runList_cons_error rest (processDevice_empty_addresses s hdinc haddr)] at h
        simp at h
      | cons a as =>
        rw [runList_cons_ok rest (processDevice_included s hdinc haddr)] at h
        have hihv := ih h
        simp only [lastVar]
        cases hlv : lastVar f hst rest with
        | some a' => rw [hlv] at hihv; simpa using hihv
        | none =>
          rw [hlv] at hihv
          simp only at hihv
          rw [hihv, processTags_hostVar]
          simp only [addHostVar, hdinc, Bool.true_and, haddr, List.head?]
          by_cases hh : d.hostname = hst
          · have : (d.hostname == hst) = true := by simp [hh]
            simp [this, hh.symm]
          · have h1 : (d.hostname == hst) = false := by simp [hh]
            have h2 : ¬ hst = d.hostname := fun x => hh x.symm
            simp [h1, h2]
    · rw [runList_cons_ok rest
        (processDevice_not_included s (Bool.not_eq_true _ ▸ hdinc))] at h
      have hihv := ih h
      simp only [lastVar]
      have hfalse : included f d.tags = false := Bool.not_eq_true _ ▸ hdinc
      cases hlv : lastVar f hst rest with
      | some a' => rw [hlv] at hihv; simpa using hihv
      | none =>
        rw [hlv] at hihv
        simp only at hihv
        simp [hfalse, hihv]

theorem runList_member {f : List String} {L : List Device} {s t : InvState}
    (h : runList f s L = .ok t) (g hst : String) :
    t.member g hst = (s.member g hst || inGroup f g hst L) := by
  induction L generalizing s with
  | nil =>
    simp only [runList] at h
    cases h
    simp [inGroup]
  | cons d rest ih =>
    by_cases hdinc : included f d.tags
    · cases haddr : d.addresses with
      | nil =>
        rw [runList_cons_error rest (processDevice_empty_addresses s hdinc haddr)] at h
        simp at h
      | cons a as =>
        rw [runList_cons_ok rest (processDevice_included s hdinc haddr)] at h
        have hih := ih h
        rw [hih, processTags_member]
        have hmv : (addHostVar s d.hostname a).member g hst = s.member g hst := rfl
        rw [hmv]
        simp only [inGroup, hdinc, Bool.true_and]
        rw [Bool.or_assoc]
    · rw [runList_cons_ok rest
        (processDevice_not_included s (Bool.not_eq_true _ ▸ hdinc))] at h
      have hih := ih h
      have hfalse : included f d.tags = false := Bool.not_eq_true _ ▸ hdinc
      rw [hih]
      simp [inGroup, hfalse]

theorem runList_gexists {f : List String} {L : List Device} {s t : InvState}
    (h : runList f s L = .ok t) (g : String) :
    t.gexists g = (s.gexists g || touched f g L) := by
  induction L generalizing s with
  | nil =>
    simp only [runList] at h
    cases h
    simp [touched]
  | cons d rest ih =>
    by_cases hdinc : included f d.tags
    · cases haddr : d.addresses with
      | nil =>
        rw [runList_cons_error rest (processDevice_empty_addresses s hdinc haddr)] at h
        simp at h
      | cons a as =>
        rw [runList_cons_ok rest (processDevice_included s hdinc haddr)] at h
        have hih := ih h
        rw [hih, processTags_gexists]
        have hgv : (addHostVar s d.hostname a).gexists g = s.gexists g := rfl
        rw [hgv]
        simp only [touched, hdinc, Bool.true_and]
        rw [Bool.or_assoc]
    · rw [runList_cons_ok rest
        (processDevice_not_included s (Bool.not_eq_true _ ▸ hdinc))] at h
      have hih := ih h
      have hfalse : included f d.tags = false := Bool.not_eq_true _ ▸ hdinc
      rw [hih]
      simp [touched, hfalse]

theorem runList_ok_of_addresses {f : List String} {L : List Device}
    (hne : ∀ d ∈ L, included f d.tags = true → d.addresses ≠ []) (s : InvState) :
    ∃ t, runList f s L = .ok t := by
  induction L generalizing s with
  | nil => exact ⟨s, rfl⟩
  | cons d rest ih =>
    have hne' : ∀ d' ∈ rest, included f d'.tags = true → d'.addresses ≠ [] :=
      fun d' hd' => hne d' (List.mem_cons_of_mem _ hd')
    by_cases hdinc : included f d.tags
    · cases haddr : d.addresses with
      | nil => exact absurd haddr (hne d (List.mem_cons_self _ _) hdinc)
      | cons a as =>
        obtain ⟨t, ht⟩ :=
          ih hne' (processTags (addHostVar s d.hostname a) d.hostname d.tags)
        exact ⟨t, by rw [runList_cons_ok rest (processDevice_included s hdinc haddr)]; exact ht⟩
    · obtain ⟨t, ht⟩ := ih hne' s
      exact ⟨t, by
        rw [runList_cons_ok rest
          (processDevice_not_included s (Bool.not_eq_true _ ▸ hdinc))]
        exact ht⟩

theorem lastVar_some {f : List String} {L : List Device} {hst a : String}
    (h : lastVar f hst L = some a) :
    ∃ d ∈ L, included f d.tags = true ∧ d.hostname = hst
      ∧ d.addresses.head? = some a := by
  induction L with
  | nil => simp [lastVar] at h
  | cons d rest ih =>
    simp only [lastVar] at h
    cases hlv : lastVar f hst rest with
    | some a' =>
      rw [hlv] at h
      obtain ⟨d', hd', hrest⟩ := ih (hlv.trans (by simpa using h))
      exact ⟨d', List.mem_cons_of_mem _ hd', hrest⟩
    | none =>
      rw [hlv] at h
      simp only at h
      by_cases hc : (included f d.tags && (d.hostname == hst)) = true
      · rw [if_pos hc] at h
        obtain ⟨h1, h2⟩ := Bool.and_eq_true_iff.mp hc
        exact ⟨d, List.mem_cons_self _ _, h1, by simpa using h2, h⟩
      · rw [if_neg hc] at h
        simp at h

theorem lastVar_none {f : List String} {L : List Device} {hst : String}
    (h : lastVar f hst L = none) :
    ∀ d ∈ L, included f d.tags = true → d.hostname = hst → d.addresses.head? = none := by
  induction L with
  | nil => intro d hd; simp at hd
  | cons d rest ih =>
    intro d' hd' hinc hname
    simp only [lastVar] at h
    cases hlv : lastVar f hst rest with
    | some a' => rw [hlv] at h; simp at h
    | none =>
      rw [hlv] at h
      simp only at h
      rcases List.mem_cons.mp hd' with rfl | hmem
      · have hc : (included f d'.tags && (d'.hostname == hst)) = true := by
          simp [hinc, hname]
        rw [if_pos hc] at h
        exact h
      · exact ih hlv d' hmem hinc hname

theorem inGroup_exists {f : List String} {L : List Device} {g hst : String}
    (h : inGroup f g hst L = true) :
    ∃ d ∈ L, included f d.tags = true ∧ d.hostname = hst
      ∧ ∃ tg ∈ d.tags, groupName tg = g := by
  induction L with
  | nil => simp [inGroup] at h
  | cons d rest ih =>
    simp only [inGroup, Bool.or_eq_true] at h
    rcases h with hd | hrest
    · obtain ⟨h12, h3⟩ := Bool.and_eq_true_iff.mp hd
      obtain ⟨h1, h2⟩ := Bool.and_eq_true_iff.mp h12
      obtain ⟨tg, htg, hgn⟩ := List.any_eq_true.mp h3
      exact ⟨d, List.mem_cons_self _ _, h1,
        (by simpa using h2 : hst = d.hostname).symm,
        tg, htg, by simpa using hgn⟩
    · obtain ⟨d', hd', hrest'⟩ := ih hrest
      exact ⟨d', List.mem_cons_of_mem _ hd', hrest'⟩

theorem inGroup_of_mem {f : List String} {L : List Device} {d : Device} {tg : String}
    (hd : d ∈ L) (hinc : included f d.tags = true) (htg : tg ∈ d.tags) :
    inGroup f (groupName tg) d.hostname L = true := by
  induction L with
  | nil => simp at hd
  | cons d' rest ih =>
    simp only [inGroup, Bool.or_eq_true]
    rcases List.mem_cons.mp hd with rfl | hmem
    · left
      simp only [hinc, Bool.true_and, beq_self_eq_true, Bool.true_and]
      exact List.any_eq_true.mpr ⟨tg, htg, by simp⟩
    · right
      exact ih hmem

theorem InvState.ext_fields {a b : InvState} (h1 : a.hostVar = b.hostVar)
    (h2 : a.gexists = b.gexists) (h3 : a.member = b.member) : a = b := by
  cases a
  cases b
  simp_all

theorem touched_of_mem {f : List String} {L : List Device} {d : Device} {tg : String}
    (hd : d ∈ L) (hinc : included f d.tags = true) (htg : tg ∈ d.tags) :
    touched f (groupName tg) L = true := by
  induction L with
  | nil => simp at hd
  | cons d' rest ih =>
    simp only [touched, Bool.or_eq_true]
    rcases List.mem_cons.mp hd with rfl | hmem
    · left
      simp only [hinc, Bool.true_and]
      exact List.any_eq_true.mpr ⟨tg, htg, by simp⟩
    · right
      exact ih hmem

/-- C1: a device is included in the built inventory iff the tag filter is
empty or some filter entry, prefixed with `"tag:"`, occurs among the
device's tags; a hostname with no included occurrence in the collection
is excluded entirely — no host entry and no membership in any group.
(Inclusion is stated at hostname level, the device's identity in the
inventory.) -/
theorem tag_filter_characterizes_inclusion {L : List Device} {f : List String}
    {t : InvState} (h : build L f = .ok t) :
    (∀ hst : String,
      (t.hostVar hst).isSome = true
        ↔ ∃ d ∈ L, included f d.tags = true ∧ d.hostname = hst)
    ∧ (∀ g hst : String, t.member g hst = true →
        ∃ d ∈ L, included f d.tags = true ∧ d.hostname = hst) := by
  have h' : runList f emptyInv L = .ok t := h
  constructor
  · intro hst
    have hv := runList_hostVar h' hst
    constructor
    · intro hsome
      cases hlv : lastVar f hst L with
      | none =>
        rw [hlv] at hv
        simp only [emptyInv] at hv
        rw [hv] at hsome
        simp at hsome
      | some a =>
        obtain ⟨d, hd, hinc, hname, _⟩ := lastVar_some hlv
        exact ⟨d, hd, hinc, hname⟩
    · rintro ⟨d, hd, hinc, rfl⟩
      cases hlv : lastVar f d.hostname L with
      | some a =>
        rw [hlv] at hv
        simp only at hv
        rw [hv]
        rfl
      | none =>
        have hne := runList_ok_addresses h' d hd hinc
        have hnone := lastVar_none hlv d hd hinc rfl
        cases haddr : d.addresses with
        | nil => exact absurd haddr hne
        | cons a as => rw [haddr] at hnone; simp at hnone
  · intro g hst hmem
    have hm := runList_member h' g hst
    rw [hmem] at hm
    have hig : inGroup f g hst L = true := by
      simpa [emptyInv] using hm.symm
    obtain ⟨d, hd, hinc, hname, _⟩ := inGroup_exists hig
    exact ⟨d, hd, hinc, hname⟩

/-- Witness for C1 at the spec §8 scenario: with filter `["web"]`, host
`a` is present, and hostname `b` (whose only device carries `tag:db`) is
in no group. -/
theorem tag_filter_characterizes_inclusion_witness :
    ((extractInv (build [devA, devB] ["web"])).hostVar "a").isSome = true
    ∧ (extractInv (build [devA, devB] ["web"])).member "tag_db" "b" ≠ true := by
  have h : build [devA, devB] ["web"] = .ok (extractInv (build [devA, devB] ["web"])) := rfl
  have hthm := tag_filter_characterizes_inclusion h
  constructor
  · exact (hthm.1 "a").mpr ⟨devA, by simp, by decide, rfl⟩
  · intro hmem
    obtain ⟨d, hd, hinc, hname⟩ := hthm.2 "tag_db" "b" hmem
    simp only [List.mem_cons, List.mem_singleton, List.not_mem_nil, or_false] at hd
    rcases hd with rfl | rfl
    · exact absurd hname (by decide)
    · exact absurd hinc (by decide)

/-- C2 (code behavior at the failing input): an included device with an
empty address list makes the build fail with the bare `IndexError` raised
by `device["addresses"][0]` — an error carrying no device identity — and
not with a `PreconditionViolation` naming the offending device. -/
theorem empty_addresses_raise_bare_index_error :
    build [devNoAddr] [] = .error .indexError := rfl

/-- C3: for every included device and every tag `"tag:" ++ nm` it carries
(all of its tags, not only the filter-matching one), the build creates the
group `"tag_" ++ nm` — the `tag:` prefix stripped — and adds the device's
hostname as a member. -/
theorem all_tags_become_groups {L : List Device} {f : List String}
    {t : InvState} {d : Device} {tg nm : String} (h : build L f = .ok t)
    (hd : d ∈ L) (hinc : included f d.tags = true) (htg : tg ∈ d.tags)
    (hnm : tg = "tag:" ++ nm) :
    t.gexists ("tag_" ++ nm) = true ∧ t.member ("tag_" ++ nm) d.hostname = true := by
  have h' : runList f emptyInv L = .ok t := h
  have hgn : groupName tg = "tag_" ++ nm := by
    rw [hnm, groupName, drop_four_tag]
  constructor
  · have hge := runList_gexists h' ("tag_" ++ nm)
    rw [hge]
    have htch := touched_of_mem hd hinc htg
    rw [hgn] at htch
    simp [emptyInv, htch]
  · have hm := runList_member h' ("tag_" ++ nm) d.hostname
    rw [hm]
    have hig := inGroup_of_mem hd hinc htg
    rw [hgn] at hig
    simp [emptyInv, hig]

/-- Witness for C3: device `a` tagged `tag:web` with an empty filter
yields group `tag_web` containing `a`. -/
theorem all_tags_become_groups_witness :
    (extractInv (build [devA, devB] [])).gexists "tag_web" = true
    ∧ (extractInv (build [devA, devB] [])).member "tag_web" "a" = true := by
  have h : build [devA, devB] [] = .ok (extractInv (build [devA, devB] [])) := rfl
  exact @all_tags_become_groups [devA, devB] [] (extractInv (build [devA, devB] []))
    devA "tag:web" "web" h (by simp) (by decide) (by simp [devA]) rfl

/-- C4: the inventory build is idempotent — re-running the device pass on
the outcome of a first run over the identical input yields the identical
outcome: the same host set, the same `ansible_host` values, and the same
groups and memberships (and an error outcome is reproduced unchanged). -/
theorem build_idempotent (L : List Device) (f : List String) :
    rerun L f (build L f) = build L f := by
  cases hb : build L f with
  | error e => simp [rerun]
  | ok t =>
    simp only [rerun]
    have hb' : runList f emptyInv L = .ok t := hb
    have hne := runList_ok_addresses hb'
    obtain ⟨t', ht'⟩ := runList_ok_of_addresses hne t
    rw [ht']
    congr 1
    apply InvState.ext_fields
    · funext hst
      have hv1 := runList_hostVar hb' hst
      have hv2 := runList_hostVar ht' hst
      cases hlv : lastVar f hst L with
      | some a =>
        rw [hlv] at hv1 hv2
        simp only at hv1 hv2
        rw [hv1, hv2]
      | none =>
        rw [hlv] at hv1 hv2
        simp only at hv1 hv2
        rw [hv2]
    · funext g
      have hg1 := runList_gexists hb' g
      have hg2 := runList_gexists ht' g
      rw [hg2, hg1]
      simp [emptyInv]
    · funext g hst
      have hm1 := runList_member hb' g hst
      have hm2 := runList_member ht' g hst
      rw [hm2, hm1]
      simp [emptyInv]

/-- C5: `get_devices` returns the parsed device collection exactly when
the HTTP status is 200 and otherwise fails with the error carrying that
status and the raw response body, so a 403 yields the error
`{status := 403, body}` and no device collection. -/
theorem get_devices_status_split (resp : HttpResponse) :
    (resp.status = 200 → get_devices resp = .ok resp.payload)
    ∧ (resp.status ≠ 200 →
        get_devices resp = .error { status := resp.status, body := resp.body }) := by
  constructor <;> intro h <;> simp [get_devices, h]

/-- Witness for C5: a 403 response with body `"denied"` fails with the
error carrying status 403 and that body. -/
theorem get_devices_status_split_witness :
    get_devices { status := 403, body := "denied", payload := { devices := [] } }
      = .error { status := 403, body := "denied" } :=
  (get_devices_status_split
    { status := 403, body := "denied", payload := { devices := [] } }).2 (by decide)

/-- C6 (counterexample): with an existing but malformed cache file,
`load_token` fails with the JSON decode error — it does not fall back to
the OAuth2 exchange, so the freshly derived token is not returned. -/
theorem corrupt_cache_is_fatal :
    load_token (some none)
        { access_token := "fresh", token_type := "bearer", expires_at := none }
      ≠ .ok { access_token := "fresh", token_type := "bearer", expires_at := none } := by
  intro h
  simp [load_token] at h

/-- C6 (amended): `load_token` derives a fresh token via the OAuth2
client-credentials exchange only when the cache file is absent; an
existing malformed cache file is a fatal decode error rather than a
trigger for re-derivation, and an existing well-formed cache is returned
as-is. -/
theorem load_token_split (file : Option (Option Token)) (fresh : Token) :
    (file = none → load_token file fresh = .ok fresh)
    ∧ (file = some none → load_token file fresh = .error .jsonDecodeError)
    ∧ (∀ tk, file = some (some tk) → load_token file fresh = .ok tk) := by
  refine ⟨?_, ?_, ?_⟩
  · rintro rfl; rfl
  · rintro rfl; rfl
  · rintro tk rfl; rfl

/-- Witness for C6 (amended), at a malformed cache file. -/
theorem load_token_split_witness :
    load_token (some none)
        { access_token := "t", token_type := "b", expires_at := none }
      = .error .jsonDecodeError :=
  (load_token_split (some none)
    { access_token := "t", token_type := "b", expires_at := none }).2.1 rfl

/-- C7: a token written by `TokenStore.save` and read back by
`TokenStore.load` is recovered with all fields equal to the original. -/
theorem token_save_load_roundtrip (t : Token) :
    TokenStore.load (TokenStore.save t) = some t := by
  cases t with
  | mk a ty ex =>
    cases ex <;> simp [TokenStore.save, TokenStore.load, lookupField]

/-- C8: every included device with a non-empty address list gets a host
entry named by its hostname whose `ansible_host` is the first element of
its address list.  Stated for hostnames whose included occurrences agree
on the first address: when several included devices share a hostname the
source's repeated `set_variable` lets the last occurrence win, so the
per-device reading needs that agreement. -/
theorem included_host_first_address {L : List Device} {f : List String}
    {t : InvState} {d : Device} {a : String} {as : List String}
    (h : build L f = .ok t) (hd : d ∈ L) (hinc : included f d.tags = true)
    (haddr : d.addresses = a :: as)
    (hagree : ∀ d' ∈ L, included f d'.tags = true → d'.hostname = d.hostname →
      d'.addresses.head? = some a) :
    t.hostVar d.hostname = some a := by
  have h' : runList f emptyInv L = .ok t := h
  have hv := runList_hostVar h' d.hostname
  cases hlv : lastVar f d.hostname L with
  | none =>
    have hnone := lastVar_none hlv d hd hinc rfl
    rw [haddr] at hnone
    simp at hnone
  | some v =>
    rw [hlv] at hv
    simp only at hv
    obtain ⟨d', hd', hinc', hname', hhead'⟩ := lastVar_some hlv
    have h1 := hagree d' hd' hinc' hname'
    rw [hhead'] at h1
    rw [hv]
    exact h1

/-- Witness for C8 at the spec §8 scenario: host `a` ends with
`ansible_host = "10.0.0.1"`. -/
theorem included_host_first_address_witness :
    (extractInv (build [devA, devB] ["web"])).hostVar "a" = some "10.0.0.1" := by
  have h : build [devA, devB] ["web"]
      = .ok (extractInv (build [devA, devB] ["web"])) := rfl
  exact @included_host_first_address [devA, devB] ["web"]
    (extractInv (build [devA, devB] ["web"])) devA "10.0.0.1" [] h
    (by simp) (by decide) rfl (by decide)

/-- C9: in a successful build, group membership is a subset of the host
set — every hostname appearing as a member of any group also has a host
entry. -/
theorem group_members_are_hosts {L : List Device} {f : List String}
    {t : InvState} {g hst : String} (h : build L f = .ok t)
    (hmem : t.member g hst = true) :
    (t.hostVar hst).isSome = true := by
  have h' : runList f emptyInv L = .ok t := h
  have hm := runList_member h' g hst
  rw [hmem] at hm
  have hig : inGroup f g hst L = true := by
    simpa [emptyInv] using hm.symm
  obtain ⟨d, hd, hinc, hname, _⟩ := inGroup_exists hig
  have hv := runList_hostVar h' hst
  cases hlv : lastVar f hst L with
  | some a =>
    rw [hlv] at hv
    simp only at hv
    rw [hv]
    rfl
  | none =>
    have hne := runList_ok_addresses h' d hd hinc
    have hnone := lastVar_none hlv d hd hinc hname
    cases haddr : d.addresses with
    | nil => exact absurd haddr hne
    | cons a as => rw [haddr] at hnone; simp at hnone

/-- Witness for C9: hostname `a`, a member of `tag_web` in the spec §8
scenario, also has a host entry. -/
theorem group_members_are_hosts_witness :
    ((extractInv (build [devA, devB] ["web"])).hostVar "a").isSome = true := by
  have h : build [devA, devB] ["web"]
      = .ok (extractInv (build [devA, devB] ["web"])) := rfl
  exact group_members_are_hosts h
    (show (extractInv (build [devA, devB] ["web"])).member "tag_web" "a" = true from rfl)

/-- C10: the derived group name is `"tag_"` followed by the tag with its
first four characters removed unconditionally — also for tags that do not
begin with `"tag:"`; a tag shorter than five characters (such as `"web"`)
leaves an empty suffix, producing the group `"tag_"`. -/
theorem group_name_drops_first_four {L : List Device} {f : List String}
    {t : InvState} {d : Device} {tg : String} (h : build L f = .ok t)
    (hd : d ∈ L) (hinc : included f d.tags = true) (htg : tg ∈ d.tags) :
    t.member ("tag_" ++ tg.drop 4) d.hostname = true := by
  have h' : runList f emptyInv L = .ok t := h
  have hig := inGroup_of_mem hd hinc htg
  have hm := runList_member h' ("tag_" ++ tg.drop 4) d.hostname
  rw [hm]
  simpa [emptyInv, groupName] using hig

/-- Witness for C10: the unprefixed three-character tag `"web"` lands its
host in the group named bare `"tag_"`. -/
theorem group_name_drops_first_four_witness :
    (extractInv (build [devShortTag] [])).member "tag_" "h" = true := by
  have hb : build [devShortTag] [] = .ok (extractInv (build [devShortTag] [])) := rfl
  exact @group_name_drops_first_four [devShortTag] []
    (extractInv (build [devShortTag] [])) devShortTag "web" hb
    (by simp) (by decide) (by simp [devShortTag])
